import Mathlib

/-!
Verification development for a multi-node chat relay server
(`server.py`, `logger.py`).  The Python code is shallowly embedded:
JSON objects become association lists over a small value type, socket
side effects become explicit event traces, the per-connection handler
loops become recursive functions over the list of decoded messages, and
the failure environment (which sockets raise on send, which log calls
raise) is an explicit parameter.  Critical sections guarded by
`clients_lock`, `peer_lock` and `seen_lock` are modelled as single
atomic steps, which the locks justify.
-/

/-- JSON scalar values used on the wire: strings and (timestamp) numbers.
`time.time()` is modelled as a natural-number tick counter. -/
inductive JVal where
  | s : String → JVal
  | n : Nat → JVal
deriving DecidableEq, Repr

/-- A decoded JSON object (a Python dict) as an association list;
key order is insertion order, keys are unique for objects the code builds. -/
abbrev Msg := List (String × JVal)

/-- Python's `d.get(k)`: `none` models `None`. -/
def Msg.get (m : Msg) (k : String) : Option JVal :=
  List.lookup k m

/-- Python's `d[k] = v`: overwrite in place if the key exists,
otherwise append (dicts preserve insertion order). -/
def setKey (m : Msg) (k : String) (v : JVal) : Msg :=
  if (Msg.get m k).isSome then
    m.map (fun p => if p.1 = k then (k, v) else p)
  else
    m ++ [(k, v)]

/-- Observable actions of the node, in program order. -/
inductive Event where
  /-- a `send_json(sock, m)` attempt on socket `sock` -/
  | send : Nat → Msg → Event
  /-- a `broadcast_local(record, exclude)` call -/
  | bcast : Msg → Option String → Event
  /-- a `forward_to_peers(record)` call, carrying the relay packet built from it -/
  | fwd : Msg → Event
  /-- a successful `logger.log` append of the (mutated) record -/
  | logApp : Msg → Event
  /-- a `sock.close()` call -/
  | close : Nat → Event
  /-- a `socket.connect` attempt by the peer connector -/
  | tryConnect : Event
  /-- `time.sleep(d)` in the peer connector retry loop -/
  | sleepE : Nat → Event
  /-- the `hello{from_server: sid}` handshake send -/
  | sendHello : String → Event
  /-- `peer_sockets[pid] = sock` -/
  | registerPeer : String → Event
  /-- spawning `handle_peer` in a new thread -/
  | spawnHandler : String → Event
  /-- `peer_sockets.pop(pid, None)` in `handle_peer` cleanup -/
  | popPeer : String → Event
deriving DecidableEq, Repr

/-- Loop control after processing one message: keep reading (`next`),
`break` out of the loop (`brk`), or an uncaught exception (`exn`). -/
inductive Ctl where
  | next | brk | exn
deriving DecidableEq, Repr

/-- Static configuration of one client-session handler: the node id
(`self.server_id`) and the session's socket. -/
structure Cfg where
  server_id : String
  csock : Nat
deriving DecidableEq, Repr

/-- Failure environment: sockets whose `send` raises, and the indices of
`logger.log` calls that raise (the log-call counter is in the state). -/
structure Env where
  badSocks : List Nat
  logFailsAt : List Nat
deriving DecidableEq, Repr

/-- Relay fingerprint, exactly the tuple `key` computed in `handle_peer`. -/
abbrev Fp := Option JVal × Option JVal × Option JVal × Option JVal

/-- Mutable node state touched by the handlers: the username registry
`self.clients`, the dedup set `self.seen`, the clock and the log-call
counter. -/
structure ServerSt where
  clients : List (String × Nat)
  seen : List Fp
  now : Nat
  logCalls : Nat
deriving DecidableEq, Repr

/-- The `{"type": "system", "text": t}` message literal. -/
def sysMsg (t : String) : Msg :=
  [("type", JVal.s "system"), ("text", JVal.s t)]

/-- The `{"type": "error", "text": t}` message literal. -/
def errMsg (t : String) : Msg :=
  [("type", JVal.s "error"), ("text", JVal.s t)]

/-- A client `{"type": "login", "username": u}` message. -/
def loginMsg (u : String) : Msg :=
  [("type", JVal.s "login"), ("username", JVal.s u)]

/-- A client `{"type": "msg", "text": t}` message. -/
def chatMsg (t : String) : Msg :=
  [("type", JVal.s "msg"), ("text", JVal.s t)]

/-- The ChatRecord dict built in the `msg` branch of `handle_client`. -/
def mkRecord (u sid : String) (text : JVal) (ts : Nat) : Msg :=
  [("type", JVal.s "msg"), ("from", JVal.s u), ("server", JVal.s sid),
   ("text", text), ("timestamp", JVal.n ts)]

/-- `ChatServer.broadcast_local(record, exclude)`: under `clients_lock`,
attempt `send_json` to every registry entry whose name is not `exclude`,
collect the entries whose send raised into `dead`, and remove those after
the iteration.  Returns the updated registry and the emitted events
(the `bcast` marker records the call itself). -/
def broadcast_local (env : Env) (clients : List (String × Nat)) (record : Msg)
    (exclude : Option String) : List (String × Nat) × List Event :=
  let attempted := clients.filter (fun p => decide (¬ some p.1 = exclude))
  let evs := attempted.map (fun p => Event.send p.2 record)
  let dead := (attempted.filter (fun p => decide (p.2 ∈ env.badSocks))).map Prod.fst
  (clients.filter (fun p => decide (¬ p.1 ∈ dead)),
   Event.bcast record exclude :: evs)

/-- `SharedLogger.log(record)`: the line `record["logged_at"] = time.time()`
mutates the caller's dict in place before serializing and appending it.
The returned value is both the appended line's content and the caller's
record object after the call. -/
def SharedLogger.log (record : Msg) (now : Nat) : Msg :=
  setKey record "logged_at" (JVal.n now)

/-- The `relay_msg` packet built in `forward_to_peers` from a ChatRecord.
The Python code indexes `record["from"]` etc.; every record the code
passes in has all four keys, so the `getD` defaults are unreachable. -/
def relay_packet (record : Msg) : Msg :=
  [("type", JVal.s "relay_msg"),
   ("from", (Msg.get record "from").getD (JVal.s "")),
   ("origin_server", (Msg.get record "server").getD (JVal.s "")),
   ("text", (Msg.get record "text").getD (JVal.s "")),
   ("timestamp", (Msg.get record "timestamp").getD (JVal.s ""))]

/-- Result of processing one message in `handle_client`: new state,
emitted events, the `username` local variable, and loop control. -/
structure StepRes where
  st : ServerSt
  evs : List Event
  user : Option String
  ctl : Ctl
deriving DecidableEq, Repr

/-- The check-and-insert on `self.clients` performed under `clients_lock`
on a login (server.py lines 102-108): if the name is present the registry
is returned unchanged with `false` ("username taken"), otherwise the
entry is inserted and `true` is returned. -/
def loginRegister (clients : List (String × Nat)) (r : String) (sock : Nat) :
    List (String × Nat) × Bool :=
  if (List.lookup r clients).isSome then (clients, false)
  else (clients ++ [(r, sock)], true)

/-- `self.clients.pop(name, None)` from the cleanup path, as a filter. -/
def removeName (clients : List (String × Nat)) (r : String) :
    List (String × Nat) :=
  clients.filter (fun p => decide (¬ p.1 = r))

/-- Python's `str.strip()`: drop leading and trailing whitespace.
(Defined structurally over the character list so that it evaluates by
kernel reduction; `String.trim` is defined by well-founded recursion on
substrings and does not.) -/
def pyStrip (s : String) : String :=
  ⟨((s.data.dropWhile Char.isWhitespace).reverse.dropWhile
      Char.isWhitespace).reverse⟩

/-- `msg.get("username", "").strip()`.  `none` models the `AttributeError`
raised when the value is present but not a string. -/
def requestedName (m : Msg) : Option String :=
  match Msg.get m "username" with
  | none => some ""
  | some (JVal.s v) => some (pyStrip v)
  | some (JVal.n _) => none

/-- The `msg` branch of an active session (server.py lines 122-141 and
155-168): build the ChatRecord, `broadcast_local` it with no exclusion,
`forward_to_peers` it, then `logger.log` it.  The log call mutates the
record (adding `logged_at`) and may raise, which escapes to the session's
catch-all. -/
def clientMsgBranch (cfg : Cfg) (env : Env) (st : ServerSt) (u : String)
    (m : Msg) : ServerSt × List Event × Ctl :=
  let text := (Msg.get m "text").getD (JVal.s "")
  let record := mkRecord u cfg.server_id text st.now
  let b := broadcast_local env st.clients record none
  let evs := b.2 ++ [Event.fwd (relay_packet record)]
  let mutated := SharedLogger.log record (st.now + 1)
  let fails := env.logFailsAt.contains st.logCalls
  let st' : ServerSt :=
    { st with clients := b.1, now := st.now + 2, logCalls := st.logCalls + 1 }
  if fails then (st', evs, Ctl.exn)
  else (st', evs ++ [Event.logApp mutated], Ctl.next)

/-- One iteration of the first loop of `handle_client` (lines 91-148):
full login / msg / quit / invalid-request logic. -/
def clientStepFull (cfg : Cfg) (env : Env) (st : ServerSt)
    (username : Option String) (m : Msg) : StepRes :=
  let t := Msg.get m "type"
  if t = some (JVal.s "login") then
    match requestedName m with
    | none => ⟨st, [], username, Ctl.exn⟩
    | some r =>
      if r = "" then
        ⟨st, [Event.send cfg.csock (errMsg "username required")], username,
         if env.badSocks.contains cfg.csock then Ctl.exn else Ctl.next⟩
      else
        let reg := loginRegister st.clients r cfg.csock
        if reg.2 = false then
          ⟨st, [Event.send cfg.csock (errMsg "username taken")], username,
           if env.badSocks.contains cfg.csock then Ctl.exn else Ctl.next⟩
        else
          let st1 := { st with clients := reg.1 }
          let welcome :=
            sysMsg ("Welcome " ++ r ++ "! Connected to Server " ++ cfg.server_id)
          if env.badSocks.contains cfg.csock then
            ⟨st1, [Event.send cfg.csock welcome], some r, Ctl.exn⟩
          else
            let b := broadcast_local env st1.clients
                       (sysMsg (r ++ " joined the chat")) (some r)
            ⟨{ st1 with clients := b.1 },
             Event.send cfg.csock welcome :: b.2, some r, Ctl.next⟩
  else if t = some (JVal.s "msg") then
    match username with
    | some u =>
      let r := clientMsgBranch cfg env st u m
      ⟨r.1, r.2.1, username, r.2.2⟩
    | none =>
      ⟨st, [Event.send cfg.csock (errMsg "invalid request")], username,
       if env.badSocks.contains cfg.csock then Ctl.exn else Ctl.next⟩
  else if t = some (JVal.s "quit") then
    ⟨st, [], username, Ctl.brk⟩
  else
    ⟨st, [Event.send cfg.csock (errMsg "invalid request")], username,
     if env.badSocks.contains cfg.csock then Ctl.exn else Ctl.next⟩

/-- One iteration of the second loop of `handle_client` (lines 151-171):
only `msg`-while-active and `quit` are handled; every other message,
including a retried `login`, is silently ignored. -/
def clientStepRest (cfg : Cfg) (env : Env) (st : ServerSt)
    (username : Option String) (m : Msg) : StepRes :=
  let t := Msg.get m "type"
  if t = some (JVal.s "msg") then
    match username with
    | some u =>
      let r := clientMsgBranch cfg env st u m
      ⟨r.1, r.2.1, username, r.2.2⟩
    | none => ⟨st, [], username, Ctl.next⟩
  else if t = some (JVal.s "quit") then
    ⟨st, [], username, Ctl.brk⟩
  else
    ⟨st, [], username, Ctl.next⟩

/-- Result of running one `for msg in ...` loop: state, events, the
`username` variable, how the loop ended, and the socket messages left
unconsumed (relevant when the loop ended early via `break`). -/
structure LoopRes where
  st : ServerSt
  evs : List Event
  user : Option String
  ctl : Ctl
  rem : List Msg
deriving DecidableEq, Repr

/-- Drive one loop of `handle_client` over decoded messages.  `derr`
models a `json.loads`/decode failure raised by the generator after the
listed messages (a `recv_json_lines` exception); without it the
generator ends normally at end of stream. -/
def runLoopC (step : ServerSt → Option String → Msg → StepRes) :
    ServerSt → Option String → List Msg → Bool → LoopRes
  | st, u, [], derr =>
    ⟨st, [], u, if derr then Ctl.exn else Ctl.next, []⟩
  | st, u, m :: ms, derr =>
    let r := step st u m
    match r.ctl with
    | Ctl.next =>
      let r2 := runLoopC step r.st r.user ms derr
      ⟨r2.st, r.evs ++ r2.evs, r2.user, r2.ctl, r2.rem⟩
    | Ctl.brk => ⟨r.st, r.evs, r.user, Ctl.brk, ms⟩
    | Ctl.exn => ⟨r.st, r.evs, r.user, Ctl.exn, ms⟩

/-- Result of the `try` block of `handle_client` (everything before
`finally`). -/
structure BodyRes where
  st : ServerSt
  evs : List Event
  user : Option String
deriving DecidableEq, Repr

/-- The `try` body of `handle_client` when the first loop iterates the
socket generator itself (`first_msg` absent or falsy): full logic over the
stream; if it ends with `break`, the second loop consumes the remaining
messages with the reduced logic. -/
def clientBodyNoFirst (cfg : Cfg) (env : Env) (st : ServerSt)
    (sockMsgs : List Msg) (derr : Bool) : BodyRes :=
  let r1 := runLoopC (clientStepFull cfg env) st none sockMsgs derr
  match r1.ctl with
  | Ctl.exn => ⟨r1.st, r1.evs, r1.user⟩
  | Ctl.brk =>
    let r2 := runLoopC (clientStepRest cfg env) r1.st r1.user r1.rem derr
    ⟨r2.st, r1.evs ++ r2.evs, r2.user⟩
  | Ctl.next => ⟨r1.st, r1.evs, r1.user⟩

/-- The `try` body of `handle_client` (lines 84-171).  When the router
hands over a truthy `first_msg`, the first loop runs the full logic on
that single message (`iter([first_msg])`), and then — whether it finished
normally or via `break` — the second loop reads the socket with the
reduced logic.  A falsy first message (the empty dict `{}`) makes
`if first_msg:` fail, so the first loop reads the socket itself. -/
def clientBody (cfg : Cfg) (env : Env) (st : ServerSt)
    (first_msg : Option Msg) (sockMsgs : List Msg) (derr : Bool) : BodyRes :=
  match first_msg with
  | some fm =>
    if fm = ([] : Msg) then clientBodyNoFirst cfg env st sockMsgs derr
    else
      let r1 := clientStepFull cfg env st none fm
      match r1.ctl with
      | Ctl.exn => ⟨r1.st, r1.evs, r1.user⟩
      | _ =>
        let r2 := runLoopC (clientStepRest cfg env) r1.st r1.user sockMsgs derr
        ⟨r2.st, r1.evs ++ r2.evs, r2.user⟩
  | none => clientBodyNoFirst cfg env st sockMsgs derr

/-- The `finally` block of `handle_client` (lines 176-186): if a session
was registered, pop its name and broadcast the leave notice with no
exclusion; close the socket in every case. -/
def clientCleanup (env : Env) (cfg : Cfg) (st : ServerSt)
    (username : Option String) : ServerSt × List Event :=
  match username with
  | some name =>
    let clients1 := removeName st.clients name
    let b := broadcast_local env clients1 (sysMsg (name ++ " left the chat")) none
    ({ st with clients := b.1 }, b.2 ++ [Event.close cfg.csock])
  | none => (st, [Event.close cfg.csock])

/-- `ChatServer.handle_client`: run the `try` body, then the `finally`
cleanup exactly once, on every exit path (normal end, `break`, or an
exception swallowed by the bare `except`). -/
def handle_client (cfg : Cfg) (env : Env) (st : ServerSt)
    (first_msg : Option Msg) (sockMsgs : List Msg) (derr : Bool) :
    ServerSt × List Event :=
  let b := clientBody cfg env st first_msg sockMsgs derr
  let c := clientCleanup env cfg b.st b.user
  (c.1, b.evs ++ c.2)

/-- The dedup key computed in `handle_peer` (server.py lines 264-269):
`(msg.get("origin_server"), msg.get("timestamp"), msg.get("from"),
msg.get("text"))`. -/
def fingerprint (m : Msg) : Fp :=
  (Msg.get m "origin_server", Msg.get m "timestamp", Msg.get m "from",
   Msg.get m "text")

/-- The fingerprint a local ChatRecord corresponds to: its `server` field
is the origin server of the relay envelope it came from (or was turned
into). -/
def recordFp (r : Msg) : Fp :=
  (Msg.get r "server", Msg.get r "timestamp", Msg.get r "from",
   Msg.get r "text")

/-- The `local_record` dict built in `handle_peer` (lines 278-284) from
the four fields of the relay envelope. -/
def relay_local_record (f o tx ts : JVal) : Msg :=
  [("type", JVal.s "msg"), ("from", f), ("server", o), ("text", tx),
   ("timestamp", ts)]

/-- One iteration of the `handle_peer` loop (server.py lines 259-290):
ignore non-`relay_msg` messages; atomically check-and-insert the
fingerprint under `seen_lock`; on first sight build the local record
(indexing `msg["from"]` etc., which raises `KeyError` if a field is
missing — but only after the fingerprint was inserted), broadcast it
locally with no exclusion and append it to the log. -/
def peerStep (env : Env) (st : ServerSt) (m : Msg) :
    ServerSt × List Event × Ctl :=
  if ¬ Msg.get m "type" = some (JVal.s "relay_msg") then (st, [], Ctl.next)
  else
    let key := fingerprint m
    if key ∈ st.seen then (st, [], Ctl.next)
    else
      let st1 := { st with seen := key :: st.seen }
      match Msg.get m "from", Msg.get m "origin_server",
            Msg.get m "text", Msg.get m "timestamp" with
      | some f, some o, some tx, some ts =>
        let local_record := relay_local_record f o tx ts
        let b := broadcast_local env st1.clients local_record none
        let mutated := SharedLogger.log local_record st1.now
        let fails := env.logFailsAt.contains st1.logCalls
        let st2 : ServerSt :=
          { st1 with clients := b.1, now := st1.now + 1,
                     logCalls := st1.logCalls + 1 }
        if fails then (st2, b.2, Ctl.exn)
        else (st2, b.2 ++ [Event.logApp mutated], Ctl.next)
      | _, _, _, _ => (st1, [], Ctl.exn)

/-- The `for msg in recv_json_lines(psock)` loop of `handle_peer`;
an exception aborts the loop. -/
def runPeer (env : Env) : ServerSt → List Msg → ServerSt × List Event
  | st, [] => (st, [])
  | st, m :: ms =>
    let r := peerStep env st m
    match r.2.2 with
    | Ctl.exn => (r.1, r.2.1)
    | _ =>
      let r2 := runPeer env r.1 ms
      (r2.1, r.2.1 ++ r2.2)

/-- `ChatServer.handle_peer`: the receive loop followed by the
unconditional `finally` cleanup, which pops the peer id from
`peer_sockets` and closes the socket — and does nothing else: in
particular it does not re-trigger a connector. -/
def handle_peer (env : Env) (st : ServerSt) (pid : String) (psock : Nat)
    (msgs : List Msg) : ServerSt × List Event :=
  let r := runPeer env st msgs
  (r.1, r.2 ++ [Event.popPeer pid, Event.close psock])

/-- `ChatServer.peer_connector(pid, phost, pport)`, with the outcome of
the `n`-th `connect` attempt given by `outcomes n`.  Fuel bounds the
number of attempts we unfold; the `Bool` in the result is `true` iff the
function returned (connected) within that many attempts, and the event
list is everything it did meanwhile: each failed attempt is a `connect`
followed by `time.sleep(2)`; the successful attempt sends the
`hello{from_server}` handshake, registers the link, spawns
`handle_peer` in a thread, and returns. -/
def peer_connector (sid pid : String) (outcomes : Nat → Bool) :
    Nat → Nat → List Event × Bool
  | 0, _ => ([], false)
  | fuel + 1, k =>
    if outcomes k then
      ([Event.tryConnect, Event.sendHello sid, Event.registerPeer pid,
        Event.spawnHandler pid], true)
    else
      let r := peer_connector sid pid outcomes fuel (k + 1)
      (Event.tryConnect :: Event.sleepE 2 :: r.1, r.2)

/-- The per-attempt event pattern of a failed connect: try, then sleep
the fixed 2-unit delay. -/
def failCycle : List Event := [Event.tryConnect, Event.sleepE 2]

/-- Split a character list at every newline; parts are in order and the
last part is the text after the final newline (possibly empty).  Defined
structurally so that it evaluates by kernel reduction. -/
def splitParts : List Char → List (List Char)
  | [] => [[]]
  | c :: cs =>
    match splitParts cs with
    | [] => [[c]]
    | p :: ps => if c = (Char.ofNat 10) then [] :: p :: ps else (c :: p) :: ps

/-- Split a decode buffer exactly as the `buffer.split` loop of
`recv_json_lines` does while the buffer holds a newline: all
newline-terminated segments, and the trailing partial line kept in the
buffer. -/
def completeLines (b : String) : List String × String :=
  let parts := (splitParts b.data).map (fun l => String.mk l)
  (parts.dropLast, parts.getLastD "")

/-- `recv_json_lines(sock)` as the sequence of messages it yields, with
the socket's byte stream given as the list of chunks successive
`recv(4096)` calls return.  Each non-empty stripped line is one decoded
message (decoding itself is injective on well-formed lines, so the line
text stands for the message).  At end of stream any buffered partial
line is discarded. -/
def recv_json_lines : String → List String → List String
  | _, [] => []
  | buf, c :: cs =>
    let p := completeLines (buf ++ c)
    (p.1.map pyStrip).filter (fun l => decide (¬ l = "")) ++
      recv_json_lines p.2 cs

/-- `next(recv_json_lines(sock))` as executed by `route_connection`:
run the generator until its first yield and capture its state at that
moment — the yielded message, the further complete lines already
buffered in the (about to be discarded) generator, the leftover partial
line, and the chunks still unread from the socket. -/
def firstMessage : String → List String → Option (String × List String × String × List String)
  | _, [] => none
  | buf, c :: cs =>
    let p := completeLines (buf ++ c)
    match (p.1.map pyStrip).filter (fun l => decide (¬ l = "")) with
    | [] => firstMessage p.2 cs
    | m :: ms => some (m, ms, p.2, cs)

/-- The sequence of messages a connection's handler gets to see under
`route_connection`: the single message pulled from the discarded first
decoder, then whatever a fresh `recv_json_lines` (empty buffer) decodes
from the chunks the socket still holds.  `none`: the first decode failed
and the socket is closed with no handler. -/
def route_connection_msgs (chunks : List String) : Option (List String) :=
  match firstMessage "" chunks with
  | none => none
  | some (m, _, _, cs) => some (m :: recv_json_lines "" cs)

/-- An atomic operation on the username registry: a login's
check-and-insert, or a terminating session's removal of its name. -/
inductive RegOp where
  | reg : String → Nat → RegOp
  | unreg : String → RegOp
deriving DecidableEq, Repr

/-- Apply one registry critical section. -/
def applyRegOp (clients : List (String × Nat)) : RegOp → List (String × Nat)
  | RegOp.reg r s => (loginRegister clients r s).1
  | RegOp.unreg r => removeName clients r

/-- The registry after any interleaving of login and termination
critical sections, starting from the empty registry a node boots with. -/
def applyOps (ops : List RegOp) : List (String × Nat) :=
  ops.foldl applyRegOp []

/-- How many registry entries currently hold a given name. -/
def holders (clients : List (String × Nat)) (r : String) : Nat :=
  (clients.filter (fun p => decide (p.1 = r))).length

/-- Number of `close s` events in a trace. -/
def countClose (evs : List Event) (s : Nat) : Nat :=
  (evs.filter (fun e => decide (e = Event.close s))).length

theorem countClose_append (a b : List Event) (s : Nat) :
    countClose (a ++ b) s = countClose a s + countClose b s := by
  simp [countClose, List.filter_append]

theorem countClose_eq_zero {evs : List Event} {s : Nat}
    (h : Event.close s ∉ evs) : countClose evs s = 0 := by
  induction evs with
  | nil => rfl
  | cons e es ih =>
    simp only [List.mem_cons, not_or] at h
    unfold countClose
    rw [List.filter_cons, decide_eq_false (by intro hh; exact h.1 hh.symm)]
    exact ih h.2

theorem mem_broadcast_local_evs {env : Env} {clients : List (String × Nat)}
    {record : Msg} {exclude : Option String} {e : Event}
    (h : e ∈ (broadcast_local env clients record exclude).2) :
    e = Event.bcast record exclude ∨ ∃ p ∈ clients, e = Event.send p.2 record := by
  simp only [broadcast_local, List.mem_cons, List.mem_map, List.mem_filter] at h
  rcases h with h | ⟨p, ⟨hp, _⟩, rfl⟩
  · exact Or.inl h
  · exact Or.inr ⟨p, hp, rfl⟩

theorem close_not_mem_broadcast (env : Env) (clients : List (String × Nat))
    (record : Msg) (exclude : Option String) (s : Nat) :
    Event.close s ∉ (broadcast_local env clients record exclude).2 := by
  intro h
  rcases mem_broadcast_local_evs h with h | ⟨p, _, h⟩ <;> simp at h

theorem broadcast_local_clients_subset {env : Env}
    {clients : List (String × Nat)} {record : Msg} {exclude : Option String}
    {p : String × Nat} (h : p ∈ (broadcast_local env clients record exclude).1) :
    p ∈ clients := by
  simp only [broadcast_local, List.mem_filter] at h
  exact h.1

theorem clientMsgBranch_no_close (cfg : Cfg) (env : Env) (st : ServerSt)
    (u : String) (m : Msg) (s : Nat) :
    Event.close s ∉ (clientMsgBranch cfg env st u m).2.1 := by
  intro h
  simp only [clientMsgBranch] at h
  split at h <;> simp only [List.mem_append, List.mem_singleton] at h
  · rcases h with h | h
    · exact close_not_mem_broadcast _ _ _ _ _ h
    · simp at h
  · rcases h with (h | h) | h
    · exact close_not_mem_broadcast _ _ _ _ _ h
    · simp at h
    · simp at h

theorem clientStepFull_no_close (cfg : Cfg) (env : Env) (st : ServerSt)
    (u : Option String) (m : Msg) (s : Nat) :
    Event.close s ∉ (clientStepFull cfg env st u m).evs := by
  intro h
  simp only [clientStepFull] at h
  repeat' split at h
  all_goals try exact clientMsgBranch_no_close _ _ _ _ _ _ h
  all_goals try simp at h
  all_goals
    rcases List.mem_cons.mp h with h | h
  all_goals simp at h

theorem clientStepRest_no_close (cfg : Cfg) (env : Env) (st : ServerSt)
    (u : Option String) (m : Msg) (s : Nat) :
    Event.close s ∉ (clientStepRest cfg env st u m).evs := by
  intro h
  simp only [clientStepRest] at h
  repeat' split at h
  all_goals try exact clientMsgBranch_no_close _ _ _ _ _ _ h
  all_goals simp at h

theorem runLoopC_no_close {step : ServerSt → Option String → Msg → StepRes}
    (hstep : ∀ st u m, ∀ s : Nat, Event.close s ∉ (step st u m).evs) :
    ∀ (st : ServerSt) (u : Option String) (ms : List Msg) (derr : Bool)
      (s : Nat), Event.close s ∉ (runLoopC step st u ms derr).evs := by
  intro st u ms
  induction ms generalizing st u with
  | nil => intro derr s; simp [runLoopC]
  | cons m ms ih =>
    intro derr s h
    simp only [runLoopC] at h
    split at h
    · simp only [List.mem_append] at h
      rcases h with h | h
      · exact hstep _ _ _ _ h
      · exact ih _ _ _ _ h
    · exact hstep _ _ _ _ h
    · exact hstep _ _ _ _ h

theorem clientBody_no_close (cfg : Cfg) (env : Env) (st : ServerSt)
    (fm : Option Msg) (ms : List Msg) (derr : Bool) (s : Nat) :
    Event.close s ∉ (clientBody cfg env st fm ms derr).evs := by
  have hnofirst : ∀ st', Event.close s ∉ (clientBodyNoFirst cfg env st' ms derr).evs := by
    intro st' h
    simp only [clientBodyNoFirst] at h
    split at h
    · exact runLoopC_no_close (clientStepFull_no_close cfg env) _ _ _ _ _ h
    · simp only [List.mem_append] at h
      rcases h with h | h
      · exact runLoopC_no_close (clientStepFull_no_close cfg env) _ _ _ _ _ h
      · exact runLoopC_no_close (clientStepRest_no_close cfg env) _ _ _ _ _ h
    · exact runLoopC_no_close (clientStepFull_no_close cfg env) _ _ _ _ _ h
  intro h
  simp only [clientBody] at h
  split at h
  next fm' =>
    split at h
    · exact hnofirst _ h
    · split at h
      · exact clientStepFull_no_close _ _ _ _ _ _ h
      · simp only [List.mem_append] at h
        rcases h with h | h
        · exact clientStepFull_no_close _ _ _ _ _ _ h
        · exact runLoopC_no_close (clientStepRest_no_close cfg env) _ _ _ _ _ h
  next => exact hnofirst _ h

theorem removeName_key_ne {clients : List (String × Nat)} {name : String}
    {p : String × Nat} (h : p ∈ removeName clients name) : ¬ p.1 = name := by
  simp only [removeName, List.mem_filter, decide_eq_true_eq] at h
  exact h.2

theorem countClose_cleanup (env : Env) (cfg : Cfg) (st : ServerSt)
    (u : Option String) : countClose (clientCleanup env cfg st u).2 cfg.csock = 1 := by
  match u with
  | none => simp [clientCleanup, countClose]
  | some name =>
    simp only [clientCleanup]
    rw [countClose_append,
        countClose_eq_zero (close_not_mem_broadcast _ _ _ _ _)]
    simp [countClose]

/-- C5: On every termination path of a client session (explicit quit,
stream end, decode failure, send failure, log failure), the cleanup
sequence runs exactly once: the whole trace is the `try`-body trace
followed by the `finally` trace; the socket is closed exactly once; if a
session was registered (`username` set) the cleanup pops its name — the
name is absent from the final registry — and broadcasts the
"name left the chat" system notice with no exclusion to the remaining
sessions; if no session was registered the cleanup is just the close,
with no leave broadcast. -/
theorem c5_cleanup_exactly_once (cfg : Cfg) (env : Env) (st : ServerSt)
    (fm : Option Msg) (ms : List Msg) (derr : Bool) :
    (handle_client cfg env st fm ms derr =
      ((clientCleanup env cfg (clientBody cfg env st fm ms derr).st
          (clientBody cfg env st fm ms derr).user).1,
       (clientBody cfg env st fm ms derr).evs ++
         (clientCleanup env cfg (clientBody cfg env st fm ms derr).st
            (clientBody cfg env st fm ms derr).user).2)) ∧
    countClose (handle_client cfg env st fm ms derr).2 cfg.csock = 1 ∧
    (∀ name, (clientBody cfg env st fm ms derr).user = some name →
       (clientCleanup env cfg (clientBody cfg env st fm ms derr).st
           (some name)).2 =
         (broadcast_local env
            (removeName (clientBody cfg env st fm ms derr).st.clients name)
            (sysMsg (name ++ " left the chat")) none).2 ++
           [Event.close cfg.csock] ∧
       name ∉ (handle_client cfg env st fm ms derr).1.clients.map Prod.fst) ∧
    ((clientBody cfg env st fm ms derr).user = none →
       (clientCleanup env cfg (clientBody cfg env st fm ms derr).st none).2 =
         [Event.close cfg.csock]) := by
  refine ⟨rfl, ?_, ?_, fun _ => rfl⟩
  · show countClose ((clientBody cfg env st fm ms derr).evs ++
      (clientCleanup env cfg (clientBody cfg env st fm ms derr).st
        (clientBody cfg env st fm ms derr).user).2) cfg.csock = 1
    rw [countClose_append,
        countClose_eq_zero (clientBody_no_close cfg env st fm ms derr cfg.csock),
        countClose_cleanup]
  · intro name hu
    refine ⟨rfl, ?_⟩
    intro hmem
    have h1 : (handle_client cfg env st fm ms derr).1 =
        (clientCleanup env cfg (clientBody cfg env st fm ms derr).st
          (clientBody cfg env st fm ms derr).user).1 := rfl
    rw [h1, hu] at hmem
    simp only [clientCleanup, List.mem_map] at hmem
    obtain ⟨p, hp, hp1⟩ := hmem
    have hp' : p ∈ removeName (clientBody cfg env st fm ms derr).st.clients name :=
      broadcast_local_clients_subset hp
    exact removeName_key_ne hp' hp1

theorem lookup_none_iff {cl : List (String × Nat)} {r : String} :
    List.lookup r cl = none ↔ r ∉ cl.map Prod.fst := by
  induction cl with
  | nil => simp [List.lookup]
  | cons p cl ih =>
    obtain ⟨a, b⟩ := p
    by_cases h : r = a
    · subst h
      simp [List.lookup]
    · have hb : (r == a) = false := beq_false_of_ne h
      simp [List.lookup, hb, h, ih]

theorem lookup_isSome_iff {cl : List (String × Nat)} {r : String} :
    (List.lookup r cl).isSome = true ↔ r ∈ cl.map Prod.fst := by
  cases h : List.lookup r cl with
  | none => simp [lookup_none_iff.mp h]
  | some v =>
    have hne : ¬ List.lookup r cl = none := by simp [h]
    have hmem : r ∈ cl.map Prod.fst := by
      by_contra hc
      exact hne (lookup_none_iff.mpr hc)
    simp [hmem]

theorem lookup_removeName (cl : List (String × Nat)) (r : String) :
    List.lookup r (removeName cl r) = none := by
  rw [lookup_none_iff]
  intro h
  obtain ⟨p, hp, hp1⟩ := List.mem_map.mp h
  exact removeName_key_ne hp hp1

theorem applyRegOp_keys_nodup {cl : List (String × Nat)}
    (h : (cl.map Prod.fst).Nodup) (op : RegOp) :
    ((applyRegOp cl op).map Prod.fst).Nodup := by
  cases op with
  | reg r s =>
    simp only [applyRegOp, loginRegister]
    split
    · exact h
    · next hn =>
      have hr : r ∉ cl.map Prod.fst := by
        rw [← lookup_isSome_iff]
        simpa using hn
      simp only [List.map_append, List.map_cons, List.map_nil]
      rw [List.nodup_append]
      refine ⟨h, List.nodup_singleton _, ?_⟩
      intro a ha hmem
      simp only [List.mem_singleton] at hmem
      exact hr (hmem ▸ ha)
  | unreg r =>
    exact h.sublist ((List.filter_sublist cl).map Prod.fst)

theorem applyOpsFrom_keys_nodup :
    ∀ (ops : List RegOp) (cl : List (String × Nat)),
      (cl.map Prod.fst).Nodup → ((ops.foldl applyRegOp cl).map Prod.fst).Nodup := by
  intro ops
  induction ops with
  | nil => intro cl h; exact h
  | cons op ops ih => intro cl h; exact ih _ (applyRegOp_keys_nodup h op)

theorem holders_eq_zero {cl : List (String × Nat)} {r : String}
    (h : r ∉ cl.map Prod.fst) : holders cl r = 0 := by
  induction cl with
  | nil => rfl
  | cons p cl ih =>
    simp only [List.map_cons, List.mem_cons, not_or] at h
    unfold holders
    rw [List.filter_cons, decide_eq_false (fun hh => h.1 hh.symm)]
    exact ih h.2

theorem holders_le_one {cl : List (String × Nat)} {r : String}
    (h : (cl.map Prod.fst).Nodup) : holders cl r ≤ 1 := by
  induction cl with
  | nil => simp [holders]
  | cons p cl ih =>
    simp only [List.map_cons, List.nodup_cons] at h
    by_cases hp : p.1 = r
    · have h0 : holders cl r = 0 := holders_eq_zero (hp ▸ h.1)
      unfold holders at h0 ⊢
      rw [List.filter_cons, decide_eq_true hp]
      show (p :: List.filter (fun q => decide (q.1 = r)) cl).length ≤ 1
      rw [List.length_cons, h0]
    · unfold holders
      rw [List.filter_cons, decide_eq_false hp]
      exact ih h.2

/-- C1: Session registration is an atomic check-and-insert on the
username map (one `clients_lock` critical section): a login for a name
already present leaves the registry unchanged and the client is sent
`error "username taken"`; under any interleaving of login and
termination critical sections starting from an empty registry the keys
stay distinct, so at most one session holds a name at a time; and after
the holder's cleanup removes the name, the check-and-insert for that
name succeeds again. -/
theorem c1_atomic_register :
    (∀ (clients : List (String × Nat)) (r : String) (sock : Nat),
       (List.lookup r clients).isSome = true →
       loginRegister clients r sock = (clients, false)) ∧
    (∀ (cfg : Cfg) (env : Env) (st : ServerSt) (u : Option String)
       (r : String),
       ¬ r = "" → pyStrip r = r → (List.lookup r st.clients).isSome = true →
       env.badSocks.contains cfg.csock = false →
       clientStepFull cfg env st u (loginMsg r) =
         ⟨st, [Event.send cfg.csock (errMsg "username taken")], u, Ctl.next⟩) ∧
    (∀ ops : List RegOp, ((applyOps ops).map Prod.fst).Nodup) ∧
    (∀ (ops : List RegOp) (r : String), holders (applyOps ops) r ≤ 1) ∧
    (∀ (clients : List (String × Nat)) (r : String) (sock : Nat),
       (loginRegister (removeName clients r) r sock).2 = true) := by
  refine ⟨?_, ?_, ?_, ?_, ?_⟩
  · intro clients r sock h
    simp [loginRegister, h]
  · intro cfg env st u r hne htrim hsome hbad
    have ht : Msg.get (loginMsg r) "type" = some (JVal.s "login") := rfl
    have hr : requestedName (loginMsg r) = some (pyStrip r) := rfl
    simp only [clientStepFull, ht, if_pos rfl, hr, htrim]
    rw [if_neg hne]
    have hreg : (loginRegister st.clients r cfg.csock).2 = false := by
      simp [loginRegister, hsome]
    rw [if_pos hreg, hbad]
    rfl
  · intro ops
    exact applyOpsFrom_keys_nodup ops [] (by simp)
  · intro ops r
    exact holders_le_one (applyOpsFrom_keys_nodup ops [] (by simp))
  · intro clients r sock
    simp [loginRegister, lookup_removeName]

/-- C1 witness: a concrete taken-name login attempt is rejected without
mutation, and after removal the same name registers successfully. -/
theorem c1_atomic_register_witness :
    loginRegister [("bob", 7)] "bob" 9 = ([("bob", 7)], false) ∧
    clientStepFull ⟨"A", 9⟩ ⟨[], []⟩ ⟨[("bob", 7)], [], 0, 0⟩ none
        (loginMsg "bob") =
      ⟨⟨[("bob", 7)], [], 0, 0⟩, [Event.send 9 (errMsg "username taken")],
       none, Ctl.next⟩ ∧
    (loginRegister (removeName [("bob", 7)] "bob") "bob" 9).2 = true :=
  ⟨c1_atomic_register.1 [("bob", 7)] "bob" 9 (by decide),
   c1_atomic_register.2.1 ⟨"A", 9⟩ ⟨[], []⟩ ⟨[("bob", 7)], [], 0, 0⟩ none
     "bob" (by decide) (by decide) (by decide) (by decide),
   c1_atomic_register.2.2.2.2 [("bob", 7)] "bob" 9⟩

/-- Recognizer for a send attempt carrying a given record. -/
def isSendOf (record : Msg) : Event → Bool
  | Event.send _ r => decide (r = record)
  | _ => false

theorem length_filter_isSendOf (record : Msg) :
    ∀ l : List (String × Nat),
      ((l.map (fun p => Event.send p.2 record)).filter
        (isSendOf record)).length = l.length := by
  intro l
  induction l with
  | nil => rfl
  | cons p l ih =>
    simp only [List.map_cons, List.filter_cons]
    rw [if_pos (by simp [isSendOf] : isSendOf record (Event.send p.2 record) = true)]
    simpa using ih

theorem key_inj {cl : List (String × Nat)} (h : (cl.map Prod.fst).Nodup)
    {p q : String × Nat} (hp : p ∈ cl) (hq : q ∈ cl) (hpq : p.1 = q.1) :
    p = q := by
  induction cl with
  | nil => cases hp
  | cons a cl ih =>
    simp only [List.map_cons, List.nodup_cons] at h
    rcases List.mem_cons.mp hp with rfl | hp'
    · rcases List.mem_cons.mp hq with rfl | hq'
      · rfl
      · exact absurd (hpq ▸ List.mem_map_of_mem Prod.fst hq') h.1
    · rcases List.mem_cons.mp hq with rfl | hq'
      · exact absurd (hpq ▸ List.mem_map_of_mem Prod.fst hp') h.1
      · exact ih h.2 hp' hq'

/-- C4: `broadcast_local` attempts a send exactly once to every entry of
the registry except the excluded name — the sequence of attempts does not
depend on which sends fail, so one failing recipient never prevents the
attempt to any other; failed entries are only queued and removed after
the iteration.  The join notice is broadcast excluding the actor, a chat
record is broadcast with no exclusion (so the sender receives it too),
and the leave notice is broadcast after the actor was removed from the
registry, so no entry named after the actor is attempted. -/
theorem c4_broadcast_exactly_once :
    (∀ (env env' : Env) (cl : List (String × Nat)) (record : Msg)
       (ex : Option String),
       (broadcast_local env cl record ex).2 =
         (broadcast_local env' cl record ex).2) ∧
    (∀ (env : Env) (cl : List (String × Nat)) (record : Msg)
       (ex : Option String) (p : String × Nat), p ∈ cl → ¬ some p.1 = ex →
       Event.send p.2 record ∈ (broadcast_local env cl record ex).2) ∧
    (∀ (env : Env) (cl : List (String × Nat)) (record : Msg)
       (ex : Option String),
       ((broadcast_local env cl record ex).2.filter (isSendOf record)).length =
         (cl.filter (fun p => decide (¬ some p.1 = ex))).length) ∧
    (∀ (env : Env) (cl : List (String × Nat)) (record : Msg)
       (ex : Option String) (p : String × Nat), (cl.map Prod.fst).Nodup →
       (p ∈ (broadcast_local env cl record ex).1 ↔
         p ∈ cl ∧ ¬ (¬ some p.1 = ex ∧ p.2 ∈ env.badSocks))) ∧
    (∀ (cfg : Cfg) (env : Env) (st : ServerSt) (u : Option String)
       (r : String), ¬ r = "" → pyStrip r = r →
       List.lookup r st.clients = none →
       env.badSocks.contains cfg.csock = false →
       Event.bcast (sysMsg (r ++ " joined the chat")) (some r) ∈
         (clientStepFull cfg env st u (loginMsg r)).evs) ∧
    (∀ (cfg : Cfg) (env : Env) (st : ServerSt) (u : String) (m : Msg),
       (clientMsgBranch cfg env st u m).2.1.head? =
         some (Event.bcast
           (mkRecord u cfg.server_id ((Msg.get m "text").getD (JVal.s ""))
             st.now) none)) ∧
    (∀ (env : Env) (cfg : Cfg) (st : ServerSt) (name : String),
       (clientCleanup env cfg st (some name)).2 =
         (broadcast_local env (removeName st.clients name)
           (sysMsg (name ++ " left the chat")) none).2 ++
           [Event.close cfg.csock] ∧
       ∀ p ∈ removeName st.clients name, ¬ p.1 = name) := by
  refine ⟨fun _ _ _ _ _ => rfl, ?_, ?_, ?_, ?_, ?_,
    fun _ _ _ _ => ⟨rfl, fun _ hp => removeName_key_ne hp⟩⟩
  · intro env cl record ex p hp hex
    simp only [broadcast_local, List.mem_cons, List.mem_map, List.mem_filter]
    exact Or.inr ⟨p, ⟨hp, decide_eq_true hex⟩, rfl⟩
  · intro env cl record ex
    simp only [broadcast_local, List.filter_cons]
    rw [if_neg (by simp [isSendOf] :
      ¬ isSendOf record (Event.bcast record ex) = true)]
    exact length_filter_isSendOf record _
  · intro env cl record ex p hnd
    simp only [broadcast_local, List.mem_filter, decide_eq_true_eq]
    constructor
    · rintro ⟨hp, hdead⟩
      refine ⟨hp, ?_⟩
      rintro ⟨hex, hbad⟩
      exact hdead (List.mem_map_of_mem Prod.fst
        (List.mem_filter.mpr
          ⟨List.mem_filter.mpr ⟨hp, decide_eq_true hex⟩, decide_eq_true hbad⟩))
    · rintro ⟨hp, hno⟩
      refine ⟨hp, ?_⟩
      intro hdead
      obtain ⟨q, hq, hq1⟩ := List.mem_map.mp hdead
      have hq' := List.mem_filter.mp hq
      have hq'' := List.mem_filter.mp hq'.1
      have : q = p := key_inj hnd hq''.1 hp hq1
      subst this
      exact hno ⟨of_decide_eq_true hq''.2, of_decide_eq_true hq'.2⟩
  · intro cfg env st u r hne htrim hnone hbad
    have ht : Msg.get (loginMsg r) "type" = some (JVal.s "login") := rfl
    have hr : requestedName (loginMsg r) = some (pyStrip r) := rfl
    simp only [clientStepFull, ht, if_pos rfl, hr, htrim]
    rw [if_neg hne]
    have hreg : (loginRegister st.clients r cfg.csock).2 = true := by
      simp [loginRegister, hnone]
    have hreg' : ¬ (loginRegister st.clients r cfg.csock).2 = false := by
      rw [hreg]
      exact fun h => nomatch h
    rw [if_neg hreg', hbad]
    simp [broadcast_local]
  · intro cfg env st u m
    simp only [clientMsgBranch]
    split <;> simp [broadcast_local]

/-- C4 witness: with two registered clients of which one has a failing
socket, a no-exclusion broadcast attempts both sends, and the failing
entry is removed only afterwards; a join broadcast for a fresh name
carries the actor as exclusion. -/
theorem c4_broadcast_exactly_once_witness :
    Event.send 7 (chatMsg "x") ∈
      (broadcast_local ⟨[7], []⟩ [("bob", 7), ("carol", 8)] (chatMsg "x")
        none).2 ∧
    (("bob", 7) ∈
        (broadcast_local ⟨[7], []⟩ [("bob", 7), ("carol", 8)] (chatMsg "x")
          none).1 ↔
      ("bob", 7) ∈ [("bob", 7), ("carol", 8)] ∧
        ¬ (¬ some "bob" = (none : Option String) ∧ 7 ∈ [7])) ∧
    Event.bcast (sysMsg ("alice" ++ " joined the chat")) (some "alice") ∈
      (clientStepFull ⟨"A", 9⟩ ⟨[], []⟩ ⟨[], [], 0, 0⟩ none
        (loginMsg "alice")).evs :=
  ⟨c4_broadcast_exactly_once.2.1 ⟨[7], []⟩ _ _ none ("bob", 7) (by decide)
     (by decide),
   c4_broadcast_exactly_once.2.2.2.1 ⟨[7], []⟩ _ _ none ("bob", 7)
     (by decide),
   c4_broadcast_exactly_once.2.2.2.2.1 ⟨"A", 9⟩ ⟨[], []⟩ ⟨[], [], 0, 0⟩ none
     "alice" (by decide) (by decide) (by decide) (by decide)⟩

/-- The session of C2's failing input: the routed first message is a
login for the taken name "bob", and the same connection then sends a
login for the fresh name "carol". -/
def c2run : ServerSt × List Event :=
  handle_client ⟨"A", 9⟩ ⟨[], []⟩ ⟨[("bob", 7)], [], 0, 0⟩
    (some (loginMsg "bob")) [loginMsg "carol"] false

/-- C2: after a first login is rejected with "username taken", a retried
login on the same connection carrying a fresh name is silently ignored by
the second read loop: the whole session produces only the taken-error
reply and the close; "carol" is never registered, no Welcome is sent and
no join notice is broadcast — contradicting the specified retry
behaviour (and the code's own "re-run same logic" comment). -/
theorem c2_login_retry_ignored :
    c2run =
      (⟨[("bob", 7)], [], 0, 0⟩,
       [Event.send 9 (errMsg "username taken"), Event.close 9]) ∧
    "carol" ∉ c2run.1.clients.map Prod.fst ∧
    ∀ t, Event.send 9 (sysMsg t) ∉ c2run.2 := by
  refine ⟨rfl, by decide, ?_⟩
  intro t ht
  have : c2run.2 = [Event.send 9 (errMsg "username taken"), Event.close 9] :=
    rfl
  rw [this] at ht
  rcases List.mem_cons.mp ht with h | h
  · simp [errMsg, sysMsg] at h
  · simp at h

/-- The session of C7's failing input: a successful login followed by a
message of unknown type "ping". -/
def c7run : ServerSt × List Event :=
  handle_client ⟨"A", 9⟩ ⟨[], []⟩ ⟨[], [], 0, 0⟩ (some (loginMsg "alice"))
    [[("type", JVal.s "ping")]] false

/-- C7: an unhandled message type is answered with
`error "invalid request"` only when it is the connection's first (routed)
message; the same "ping" arriving later in the session is silently
ignored by the second read loop — no error reply is ever sent, though the
connection does stay open until end of stream.  `clientStepFull` (first
loop) and `clientStepRest` (second loop) are evaluated on the same
message to exhibit the divergence. -/
theorem c7_invalid_request_only_first :
    c7run.2 =
      [Event.send 9 (sysMsg "Welcome alice! Connected to Server A"),
       Event.bcast (sysMsg "alice joined the chat") (some "alice"),
       Event.bcast (sysMsg "alice left the chat") none,
       Event.close 9] ∧
    Event.send 9 (errMsg "invalid request") ∉ c7run.2 ∧
    (clientStepFull ⟨"A", 9⟩ ⟨[], []⟩ ⟨[("alice", 9)], [], 0, 0⟩
        (some "alice") [("type", JVal.s "ping")]).evs =
      [Event.send 9 (errMsg "invalid request")] ∧
    (clientStepRest ⟨"A", 9⟩ ⟨[], []⟩ ⟨[("alice", 9)], [], 0, 0⟩
        (some "alice") [("type", JVal.s "ping")]).evs = [] := by
  exact ⟨rfl, by decide, rfl, rfl⟩

/-- Does an event carry a message whose "text" field is the given
string? -/
def eventMentions (t : String) : Event → Bool
  | Event.send _ m => decide (Msg.get m "text" = some (JVal.s t))
  | Event.bcast m _ => decide (Msg.get m "text" = some (JVal.s t))
  | Event.fwd m => decide (Msg.get m "text" = some (JVal.s t))
  | Event.logApp m => decide (Msg.get m "text" = some (JVal.s t))
  | _ => false

/-- The session of C6's failing input: login, then a chat message whose
log append raises, then a further chat message. -/
def c6run : ServerSt × List Event :=
  handle_client ⟨"A", 9⟩ ⟨[], [0]⟩ ⟨[], [], 0, 0⟩ (some (loginMsg "alice"))
    [chatMsg "hi", chatMsg "second"] false

/-- C6 (counterexample): when the log append for "hi" raises, the local
broadcast and the peer forward of that record have already happened, but
the exception ends the session through the catch-all: the next message
"second" is never broadcast, sent or forwarded — the session does not
continue to deliver subsequent messages as the claim states. -/
theorem c6_log_failure_kills_session :
    Event.bcast (mkRecord "alice" "A" (JVal.s "hi") 0) none ∈ c6run.2 ∧
    Event.fwd (relay_packet (mkRecord "alice" "A" (JVal.s "hi") 0)) ∈
      c6run.2 ∧
    c6run.2.all (fun e => ! eventMentions "second" e) = true ∧
    c6run.2.getLast? = some (Event.close 9) := by
  exact ⟨by decide, by decide, by decide, by decide⟩

/-- C6 (amended): a failure raised by the log append does not affect the
delivery of the record being processed — the local broadcast and the peer
forward precede the log call, so they still occur — but it does abort the
session: the `msg` step signals the exception, and an exception at the
head of the read loop prevents every later message of the session from
being processed. -/
theorem c6_amended_log_failure :
    (∀ (cfg : Cfg) (env : Env) (st : ServerSt) (u : String) (m : Msg),
       env.logFailsAt.contains st.logCalls = true →
       (clientMsgBranch cfg env st u m).2.1 =
         (broadcast_local env st.clients
           (mkRecord u cfg.server_id ((Msg.get m "text").getD (JVal.s ""))
             st.now) none).2 ++
           [Event.fwd (relay_packet
             (mkRecord u cfg.server_id ((Msg.get m "text").getD (JVal.s ""))
               st.now))] ∧
       (clientMsgBranch cfg env st u m).2.2 = Ctl.exn) ∧
    (∀ (step : ServerSt → Option String → Msg → StepRes) (st : ServerSt)
       (u : Option String) (m : Msg) (ms : List Msg) (derr : Bool),
       (step st u m).ctl = Ctl.exn →
       runLoopC step st u (m :: ms) derr =
         ⟨(step st u m).st, (step st u m).evs, (step st u m).user, Ctl.exn,
          ms⟩) := by
  constructor
  · intro cfg env st u m h
    simp only [clientMsgBranch, h]
    exact ⟨rfl, rfl⟩
  · intro step st u m ms derr h
    simp only [runLoopC, h]

/-- C6 witness: a concrete failing log call signals the exception and
still emits the broadcast and the forward. -/
theorem c6_amended_log_failure_witness :
    (clientMsgBranch ⟨"A", 9⟩ ⟨[], [0]⟩ ⟨[("alice", 9)], [], 0, 0⟩ "alice"
        (chatMsg "hi")).2.2 = Ctl.exn :=
  (c6_amended_log_failure.1 ⟨"A", 9⟩ ⟨[], [0]⟩ ⟨[("alice", 9)], [], 0, 0⟩
    "alice" (chatMsg "hi") (by decide)).2

/-- Recognizer: a local-broadcast call whose record corresponds to the
given relay fingerprint. -/
def isFpBcast (f : Fp) : Event → Bool
  | Event.bcast r _ => decide (recordFp r = f)
  | _ => false

/-- Recognizer: a log append whose record corresponds to the given relay
fingerprint. -/
def isFpLog (f : Fp) : Event → Bool
  | Event.logApp r => decide (recordFp r = f)
  | _ => false

/-- Number of local broadcasts of records with fingerprint `f`. -/
def fpBcasts (evs : List Event) (f : Fp) : Nat :=
  (evs.filter (isFpBcast f)).length

/-- Number of log appends of records with fingerprint `f`. -/
def fpLogs (evs : List Event) (f : Fp) : Nat :=
  (evs.filter (isFpLog f)).length

theorem fpBcasts_append (a b : List Event) (f : Fp) :
    fpBcasts (a ++ b) f = fpBcasts a f + fpBcasts b f := by
  simp [fpBcasts, List.filter_append]

theorem fpLogs_append (a b : List Event) (f : Fp) :
    fpLogs (a ++ b) f = fpLogs a f + fpLogs b f := by
  simp [fpLogs, List.filter_append]

theorem fpBcasts_map_send (l : List (String × Nat)) (record : Msg) (f : Fp) :
    fpBcasts (l.map (fun p => Event.send p.2 record)) f = 0 := by
  induction l with
  | nil => rfl
  | cons p l ih =>
    unfold fpBcasts at ih ⊢
    rw [List.map_cons, List.filter_cons,
        if_neg (by simp [isFpBcast] : ¬ isFpBcast f (Event.send p.2 record) = true)]
    exact ih

theorem fpLogs_map_send (l : List (String × Nat)) (record : Msg) (f : Fp) :
    fpLogs (l.map (fun p => Event.send p.2 record)) f = 0 := by
  induction l with
  | nil => rfl
  | cons p l ih =>
    unfold fpLogs at ih ⊢
    rw [List.map_cons, List.filter_cons,
        if_neg (by simp [isFpLog] : ¬ isFpLog f (Event.send p.2 record) = true)]
    exact ih

theorem fpBcasts_broadcast (env : Env) (cl : List (String × Nat))
    (record : Msg) (ex : Option String) (f : Fp) :
    fpBcasts (broadcast_local env cl record ex).2 f =
      if recordFp record = f then 1 else 0 := by
  simp only [broadcast_local]
  unfold fpBcasts
  rw [List.filter_cons]
  by_cases h : recordFp record = f
  · rw [if_pos (by simp [isFpBcast, h] : isFpBcast f (Event.bcast record ex) = true),
        if_pos h]
    have h0 := fpBcasts_map_send (cl.filter (fun p => decide (¬ some p.1 = ex))) record f
    unfold fpBcasts at h0
    rw [List.length_cons, h0]
  · rw [if_neg (by simp [isFpBcast, h] : ¬ isFpBcast f (Event.bcast record ex) = true),
        if_neg h]
    exact fpBcasts_map_send (cl.filter (fun p => decide (¬ some p.1 = ex))) record f

theorem fpLogs_broadcast (env : Env) (cl : List (String × Nat))
    (record : Msg) (ex : Option String) (f : Fp) :
    fpLogs (broadcast_local env cl record ex).2 f = 0 := by
  simp only [broadcast_local]
  unfold fpLogs
  rw [List.filter_cons,
      if_neg (by simp [isFpLog] : ¬ isFpLog f (Event.bcast record ex) = true)]
  exact fpLogs_map_send (cl.filter (fun p => decide (¬ some p.1 = ex))) record f

theorem recordFp_relay_local (f o tx ts : JVal) :
    recordFp (relay_local_record f o tx ts) = (some o, some ts, some f, some tx) :=
  rfl

theorem recordFp_log_relay_local (f o tx ts : JVal) (now : Nat) :
    recordFp (SharedLogger.log (relay_local_record f o tx ts) now) =
      (some o, some ts, some f, some tx) :=
  rfl

theorem fpLogs_single_log (r : Msg) (f : Fp) :
    fpLogs [Event.logApp r] f = if recordFp r = f then 1 else 0 := by
  unfold fpLogs
  rw [List.filter_cons]
  by_cases h : recordFp r = f
  · rw [if_pos (by simp [isFpLog, h] : isFpLog f (Event.logApp r) = true), if_pos h]
    rfl
  · rw [if_neg (by simp [isFpLog, h] : ¬ isFpLog f (Event.logApp r) = true), if_neg h]
    rfl

theorem fpBcasts_single_log (r : Msg) (f : Fp) :
    fpBcasts [Event.logApp r] f = 0 := by
  unfold fpBcasts
  rw [List.filter_cons, if_neg (by simp [isFpBcast] : ¬ isFpBcast f (Event.logApp r) = true)]
  rfl

theorem peerStep_seen_mono (env : Env) (st : ServerSt) (m : Msg) :
    st.seen ⊆ (peerStep env st m).1.seen := by
  simp only [peerStep]
  repeat' split
  all_goals intro x hx
  all_goals first
    | exact hx
    | exact List.mem_cons_of_mem _ hx

theorem peerStep_cases (env : Env) (st : ServerSt) (m : Msg) (f : Fp) :
    (fpBcasts (peerStep env st m).2.1 f = 0 ∧
     fpLogs (peerStep env st m).2.1 f = 0) ∨
    (¬ f ∈ st.seen ∧ f ∈ (peerStep env st m).1.seen ∧
     fpBcasts (peerStep env st m).2.1 f ≤ 1 ∧
     fpLogs (peerStep env st m).2.1 f ≤ 1) := by
  simp only [peerStep]
  split
  · exact Or.inl ⟨rfl, rfl⟩
  split
  · exact Or.inl ⟨rfl, rfl⟩
  next hns =>
  split
  · next f' o tx ts hf ho htx hts =>
    have hkey : fingerprint m = (some o, some ts, some f', some tx) := by
      simp [fingerprint, hf, ho, htx, hts]
    by_cases hkf : fingerprint m = f
    · subst hkf
      split
      · refine Or.inr ⟨hns, List.mem_cons_self _ _, ?_, ?_⟩
        · rw [fpBcasts_broadcast]
          split <;> simp
        · rw [fpLogs_broadcast]
          simp
      · refine Or.inr ⟨hns, List.mem_cons_self _ _, ?_, ?_⟩
        · rw [fpBcasts_append, fpBcasts_broadcast, fpBcasts_single_log]
          split <;> simp
        · rw [fpLogs_append, fpLogs_broadcast, fpLogs_single_log]
          split <;> simp
    · have hne1 : ¬ recordFp (relay_local_record f' o tx ts) = f := by
        rw [recordFp_relay_local, ← hkey]
        exact hkf
      have hne2 : ∀ now, ¬ recordFp
          (SharedLogger.log (relay_local_record f' o tx ts) now) = f := by
        intro now
        rw [recordFp_log_relay_local, ← hkey]
        exact hkf
      split
      · refine Or.inl ⟨?_, ?_⟩
        · rw [fpBcasts_broadcast, if_neg hne1]
        · rw [fpLogs_broadcast]
      · refine Or.inl ⟨?_, ?_⟩
        · rw [fpBcasts_append, fpBcasts_broadcast, if_neg hne1,
              fpBcasts_single_log]
        · rw [fpLogs_append, fpLogs_broadcast, fpLogs_single_log]
          simp [hne2]
  all_goals exact Or.inl ⟨rfl, rfl⟩

theorem peerStep_skip (env : Env) (st : ServerSt) (m : Msg) (f : Fp)
    (h : f ∈ st.seen) :
    fpBcasts (peerStep env st m).2.1 f = 0 ∧
    fpLogs (peerStep env st m).2.1 f = 0 := by
  rcases peerStep_cases env st m f with hc | hc
  · exact hc
  · exact absurd h hc.1

theorem runPeer_seen_mono (env : Env) :
    ∀ (st : ServerSt) (msgs : List Msg),
      st.seen ⊆ (runPeer env st msgs).1.seen := by
  intro st msgs
  induction msgs generalizing st with
  | nil => exact fun x hx => hx
  | cons m ms ih =>
    simp only [runPeer]
    split
    · exact peerStep_seen_mono env st m
    · exact fun x hx => ih _ (peerStep_seen_mono env st m hx)

theorem runPeer_skip (env : Env) (f : Fp) :
    ∀ (st : ServerSt) (msgs : List Msg), f ∈ st.seen →
      fpBcasts (runPeer env st msgs).2 f = 0 ∧
      fpLogs (runPeer env st msgs).2 f = 0 := by
  intro st msgs
  induction msgs generalizing st with
  | nil => intro _; exact ⟨rfl, rfl⟩
  | cons m ms ih =>
    intro h
    have hstep := peerStep_skip env st m f h
    have hrest := ih ((peerStep env st m).1) (peerStep_seen_mono env st m h)
    simp only [runPeer]
    split
    · exact hstep
    · refine ⟨?_, ?_⟩
      · rw [fpBcasts_append, hstep.1, hrest.1]
      · rw [fpLogs_append, hstep.2, hrest.2]

theorem runPeer_le_one (env : Env) (f : Fp) :
    ∀ (st : ServerSt) (msgs : List Msg),
      fpBcasts (runPeer env st msgs).2 f ≤ 1 ∧
      fpLogs (runPeer env st msgs).2 f ≤ 1 := by
  intro st msgs
  induction msgs generalizing st with
  | nil => exact ⟨Nat.zero_le 1, Nat.zero_le 1⟩
  | cons m ms ih =>
    rcases peerStep_cases env st m f with ⟨hb0, hl0⟩ | ⟨_, hmem, hb1, hl1⟩
    · have hrest := ih ((peerStep env st m).1)
      simp only [runPeer]
      split
      · exact ⟨le_trans (le_of_eq hb0) (Nat.zero_le 1),
          le_trans (le_of_eq hl0) (Nat.zero_le 1)⟩
      · refine ⟨?_, ?_⟩
        · rw [fpBcasts_append]
          omega
        · rw [fpLogs_append]
          omega
    · have hrest0 := runPeer_skip env f ((peerStep env st m).1) ms hmem
      simp only [runPeer]
      split
      · exact ⟨hb1, hl1⟩
      · refine ⟨?_, ?_⟩
        · rw [fpBcasts_append]
          omega
        · rw [fpLogs_append]
          omega

theorem handle_peer_counts (env : Env) (st : ServerSt) (pid : String)
    (psock : Nat) (msgs : List Msg) (f : Fp) :
    fpBcasts (handle_peer env st pid psock msgs).2 f =
      fpBcasts (runPeer env st msgs).2 f ∧
    fpLogs (handle_peer env st pid psock msgs).2 f =
      fpLogs (runPeer env st msgs).2 f := by
  unfold handle_peer
  constructor
  · rw [fpBcasts_append]
    have : fpBcasts [Event.popPeer pid, Event.close psock] f = 0 := by
      simp [fpBcasts, isFpBcast, List.filter]
    omega
  · rw [fpLogs_append]
    have : fpLogs [Event.popPeer pid, Event.close psock] f = 0 := by
      simp [fpLogs, isFpLog, List.filter]
    omega

/-- C3: the Relay Deduplicator.  The check-and-insert on `self.seen` is
one `seen_lock` critical section, modelled as part of the atomic
`peerStep`; an interleaving of several peer handlers is a sequence of
such sections, which `runPeer` ranges over.  The seen set only grows:
no step of the node removes a fingerprint.  Messages sharing a
fingerprint lead to at most one local broadcast call and at most one log
append per node — zero if the fingerprint was already seen. -/
theorem c3_relay_dedup :
    (∀ (env : Env) (st : ServerSt) (m : Msg),
       st.seen ⊆ (peerStep env st m).1.seen) ∧
    (∀ (env : Env) (st : ServerSt) (msgs : List Msg),
       st.seen ⊆ (runPeer env st msgs).1.seen) ∧
    (∀ (env : Env) (st : ServerSt) (msgs : List Msg) (f : Fp),
       f ∈ st.seen →
       fpBcasts (runPeer env st msgs).2 f = 0 ∧
       fpLogs (runPeer env st msgs).2 f = 0) ∧
    (∀ (env : Env) (st : ServerSt) (msgs : List Msg) (f : Fp),
       fpBcasts (runPeer env st msgs).2 f ≤ 1 ∧
       fpLogs (runPeer env st msgs).2 f ≤ 1) ∧
    (∀ (env : Env) (st : ServerSt) (pid : String) (psock : Nat)
       (msgs : List Msg) (f : Fp),
       fpBcasts (handle_peer env st pid psock msgs).2 f ≤ 1 ∧
       fpLogs (handle_peer env st pid psock msgs).2 f ≤ 1) := by
  refine ⟨peerStep_seen_mono, runPeer_seen_mono, ?_, ?_, ?_⟩
  · intro env st msgs f h
    exact runPeer_skip env f st msgs h
  · intro env st msgs f
    exact runPeer_le_one env f st msgs
  · intro env st pid psock msgs f
    have h := handle_peer_counts env st pid psock msgs f
    have h2 := runPeer_le_one env f st msgs
    exact ⟨h.1 ▸ h2.1, h.2 ▸ h2.2⟩

/-- C3 witness: a relay message handled twice is broadcast and logged
once; with the fingerprint pre-seeded in the seen set it is not
processed at all. -/
theorem c3_relay_dedup_witness :
    fpBcasts (runPeer ⟨[], []⟩ ⟨[("bob", 7)], [], 0, 0⟩
        [[("type", JVal.s "relay_msg"), ("from", JVal.s "x"),
          ("origin_server", JVal.s "B"), ("text", JVal.s "t"),
          ("timestamp", JVal.n 5)],
         [("type", JVal.s "relay_msg"), ("from", JVal.s "x"),
          ("origin_server", JVal.s "B"), ("text", JVal.s "t"),
          ("timestamp", JVal.n 5)]]).2
      (some (JVal.s "B"), some (JVal.n 5), some (JVal.s "x"),
       some (JVal.s "t")) ≤ 1 ∧
    fpBcasts (runPeer ⟨[], []⟩
        ⟨[("bob", 7)],
         [(some (JVal.s "B"), some (JVal.n 5), some (JVal.s "x"),
           some (JVal.s "t"))], 0, 0⟩
        [[("type", JVal.s "relay_msg"), ("from", JVal.s "x"),
          ("origin_server", JVal.s "B"), ("text", JVal.s "t"),
          ("timestamp", JVal.n 5)]]).2
      (some (JVal.s "B"), some (JVal.n 5), some (JVal.s "x"),
       some (JVal.s "t")) = 0 :=
  ⟨(c3_relay_dedup.2.2.2.1 ⟨[], []⟩ ⟨[("bob", 7)], [], 0, 0⟩ _ _).1,
   (c3_relay_dedup.2.2.1 ⟨[], []⟩ _ _ _ (by decide)).1⟩

theorem tryConnect_not_mem_peerStep (env : Env) (st : ServerSt) (m : Msg) :
    Event.tryConnect ∉ (peerStep env st m).2.1 := by
  intro h
  simp only [peerStep] at h
  repeat' split at h
  all_goals dsimp only at h
  all_goals try (rcases List.mem_append.mp h with h | h)
  all_goals try (rcases mem_broadcast_local_evs h with h | ⟨p, _, h⟩)
  all_goals simp at h

theorem tryConnect_not_mem_runPeer (env : Env) :
    ∀ (st : ServerSt) (msgs : List Msg),
      Event.tryConnect ∉ (runPeer env st msgs).2 := by
  intro st msgs
  induction msgs generalizing st with
  | nil => simp [runPeer]
  | cons m ms ih =>
    intro h
    simp only [runPeer] at h
    split at h
    · exact tryConnect_not_mem_peerStep env st m h
    · rcases List.mem_append.mp h with h | h
      · exact tryConnect_not_mem_peerStep env st m h
      · exact ih _ h

theorem peer_connector_fail (sid pid : String) (outcomes : Nat → Bool) :
    ∀ (n k0 : Nat), (∀ j, j < n → outcomes (k0 + j) = false) →
      peer_connector sid pid outcomes n k0 =
        ((List.replicate n failCycle).flatten, false) := by
  intro n
  induction n with
  | zero => intro k0 _; rfl
  | succ n ih =>
    intro k0 h
    have h0 : outcomes k0 = false := by simpa using h 0 (Nat.succ_pos n)
    simp only [peer_connector, h0]
    rw [ih (k0 + 1) (fun j hj => by
      have := h (j + 1) (Nat.succ_lt_succ hj)
      simpa [Nat.add_comm, Nat.add_assoc, Nat.add_left_comm] using this)]
    simp [List.replicate_succ, failCycle]

theorem peer_connector_success (sid pid : String) (outcomes : Nat → Bool) :
    ∀ (k fuel k0 : Nat), (∀ j, j < k → outcomes (k0 + j) = false) →
      outcomes (k0 + k) = true → k < fuel →
      peer_connector sid pid outcomes fuel k0 =
        ((List.replicate k failCycle).flatten ++
          [Event.tryConnect, Event.sendHello sid, Event.registerPeer pid,
           Event.spawnHandler pid], true) := by
  intro k
  induction k with
  | zero =>
    intro fuel k0 _ hk hf
    match fuel, hf with
    | fuel + 1, _ =>
      have hk' : outcomes k0 = true := hk
      simp [peer_connector, hk']
  | succ k ih =>
    intro fuel k0 h hk hf
    match fuel, hf with
    | fuel + 1, hf =>
      have h0 : outcomes k0 = false := by simpa using h 0 (Nat.succ_pos k)
      simp only [peer_connector, h0]
      rw [ih fuel (k0 + 1)
        (fun j hj => by
          have := h (j + 1) (Nat.succ_lt_succ hj)
          simpa [Nat.add_comm, Nat.add_assoc, Nat.add_left_comm] using this)
        (by
          have : k0 + 1 + k = k0 + (k + 1) := by omega
          rw [this]
          exact hk)
        (Nat.lt_of_succ_lt_succ hf)]
      simp [List.replicate_succ, failCycle]

/-- C8 (amended): the outbound connector retries forever on connect
failure with the fixed 2-unit delay — after any number `n` of failed
attempts it has performed exactly `n` connect/sleep cycles and is still
running — and on the first successful attempt it sends the
`hello{from_server}` handshake, registers the link, spawns the peer link
handler and terminates.  After an established link later drops, however,
`handle_peer`'s cleanup only removes the link and closes the socket: no
connect attempt occurs anywhere in a peer handler's trace, so
connectivity to that peer is not retried. -/
theorem c8_amended_connector :
    (∀ (sid pid : String) (outcomes : Nat → Bool) (n : Nat),
       (∀ j, j < n → outcomes j = false) →
       peer_connector sid pid outcomes n 0 =
         ((List.replicate n failCycle).flatten, false)) ∧
    (∀ (sid pid : String) (outcomes : Nat → Bool) (k fuel : Nat),
       (∀ j, j < k → outcomes j = false) → outcomes k = true → k < fuel →
       peer_connector sid pid outcomes fuel 0 =
         ((List.replicate k failCycle).flatten ++
           [Event.tryConnect, Event.sendHello sid, Event.registerPeer pid,
            Event.spawnHandler pid], true)) ∧
    (∀ (env : Env) (st : ServerSt) (pid : String) (psock : Nat)
       (msgs : List Msg),
       Event.tryConnect ∉ (handle_peer env st pid psock msgs).2 ∧
       (handle_peer env st pid psock msgs).2 =
         (runPeer env st msgs).2 ++ [Event.popPeer pid, Event.close psock]) := by
  refine ⟨?_, ?_, ?_⟩
  · intro sid pid outcomes n h
    exact peer_connector_fail sid pid outcomes n 0 (fun j hj => by
      simpa using h j hj)
  · intro sid pid outcomes k fuel h hk hf
    exact peer_connector_success sid pid outcomes k fuel 0
      (fun j hj => by simpa using h j hj) (by simpa using hk) hf
  · intro env st pid psock msgs
    refine ⟨?_, rfl⟩
    intro h
    unfold handle_peer at h
    rcases List.mem_append.mp h with h | h
    · exact tryConnect_not_mem_runPeer env st msgs h
    · simp at h

/-- C8 witness: two failed attempts leave the connector still retrying
after two connect/sleep-2 cycles; with the first success at attempt 2 it
performs the handshake sequence and stops; a dropped handler trace holds
no connect attempt. -/
theorem c8_amended_connector_witness :
    peer_connector "A" "B" (fun _ => false) 2 0 =
      ((List.replicate 2 failCycle).flatten, false) ∧
    peer_connector "A" "B" (fun k => decide (k = 2)) 5 0 =
      ((List.replicate 2 failCycle).flatten ++
        [Event.tryConnect, Event.sendHello "A", Event.registerPeer "B",
         Event.spawnHandler "B"], true) ∧
    Event.tryConnect ∉ (handle_peer ⟨[], []⟩ ⟨[], [], 0, 0⟩ "B" 3 []).2 :=
  ⟨c8_amended_connector.1 "A" "B" _ 2 (fun j _ => rfl),
   c8_amended_connector.2.1 "A" "B" _ 2 5
     (fun j hj => decide_eq_false (by omega)) (by decide) (by decide),
   (c8_amended_connector.2.2 ⟨[], []⟩ ⟨[], [], 0, 0⟩ "B" 3 []).1⟩

/-- The complete life of one outbound peer link in C8's counterexample:
the connector succeeds at once and terminates; the established link then
drops (empty receive stream), and the handler cleanup runs. -/
def c8trace : List Event :=
  (peer_connector "A" "B" (fun _ => true) 5 0).1 ++
    (handle_peer ⟨[], []⟩ ⟨[], [], 0, 0⟩ "B" 3 []).2

/-- C8 (counterexample): the only connect attempt in the link's whole
trace precedes the drop; after the link is removed (`popPeer`) the trace
ends with the close — connectivity is never retried, contradicting the
claim that a dropped peer link is eventually reconnected without manual
restart. -/
theorem c8_no_reconnect_after_drop :
    c8trace =
      [Event.tryConnect, Event.sendHello "A", Event.registerPeer "B",
       Event.spawnHandler "B", Event.popPeer "B", Event.close 3] ∧
    (c8trace.filter (fun e => decide (e = Event.tryConnect))).length = 1 ∧
    c8trace.getLast? = some (Event.close 3) :=
  ⟨rfl, by decide, by decide⟩

/-- C9 (counterexample): `SharedLogger.log` does not leave the caller's
record unchanged — the in-place `record["logged_at"] = time.time()`
mutates the very dict that was broadcast and forwarded. -/
theorem c9_log_mutates_record :
    ¬ SharedLogger.log (mkRecord "alice" "A" (JVal.s "hi") 3) 7 =
      mkRecord "alice" "A" (JVal.s "hi") 3 := by
  decide

/-- C9 (amended): the log append mutates the caller's record, adding the
`logged_at` key (so a record without that key is never equal to its
logged form); however the mutation cannot affect what was sent, because
in the `msg` branch the local broadcast and the peer forward are
performed on the un-mutated record before `logger.log` is called — the
mutated form appears only in the log append itself. -/
theorem c9_amended_log_mutation :
    (∀ (record : Msg) (now : Nat),
       SharedLogger.log record now = setKey record "logged_at" (JVal.n now)) ∧
    (∀ (record : Msg) (now : Nat), Msg.get record "logged_at" = none →
       ¬ SharedLogger.log record now = record) ∧
    (∀ (u sid : String) (text : JVal) (ts : Nat),
       Msg.get (mkRecord u sid text ts) "logged_at" = none) ∧
    (∀ (cfg : Cfg) (env : Env) (st : ServerSt) (u : String) (m : Msg),
       env.logFailsAt.contains st.logCalls = false →
       (clientMsgBranch cfg env st u m).2.1 =
         (broadcast_local env st.clients
           (mkRecord u cfg.server_id ((Msg.get m "text").getD (JVal.s ""))
             st.now) none).2 ++
           [Event.fwd (relay_packet
             (mkRecord u cfg.server_id ((Msg.get m "text").getD (JVal.s ""))
               st.now))] ++
           [Event.logApp (SharedLogger.log
             (mkRecord u cfg.server_id ((Msg.get m "text").getD (JVal.s ""))
               st.now) (st.now + 1))]) := by
  refine ⟨fun _ _ => rfl, ?_, fun _ _ _ _ => rfl, ?_⟩
  · intro record now h heq
    rw [show SharedLogger.log record now =
          record ++ [("logged_at", JVal.n now)] from by
        simp [SharedLogger.log, setKey, h]] at heq
    simpa using congrArg List.length heq
  · intro cfg env st u m h
    simp only [clientMsgBranch, h]
    rfl

/-- C9 witness: a concrete record without `logged_at` differs from its
logged form. -/
theorem c9_amended_log_mutation_witness :
    ¬ SharedLogger.log (mkRecord "bob" "B" (JVal.s "yo") 1) 4 =
      mkRecord "bob" "B" (JVal.s "yo") 1 :=
  c9_amended_log_mutation.2.1 (mkRecord "bob" "B" (JVal.s "yo") 1) 4 rfl

theorem firstMessage_decode :
    ∀ (chunks : List String) (buf m : String) (ms : List String)
      (rest : String) (cs : List String),
      firstMessage buf chunks = some (m, ms, rest, cs) →
      recv_json_lines buf chunks = m :: (ms ++ recv_json_lines rest cs) := by
  intro chunks
  induction chunks with
  | nil => intro buf m ms rest cs h; simp [firstMessage] at h
  | cons c cs' ih =>
    intro buf m ms rest cs h
    simp only [firstMessage] at h
    simp only [recv_json_lines]
    split at h
    · next hfil =>
      rw [hfil, List.nil_append]
      exact ih _ _ _ _ _ h
    · next m' ms' hfil =>
      simp only [Option.some.injEq, Prod.mk.injEq] at h
      obtain ⟨rfl, rfl, rfl, rfl⟩ := h
      rw [hfil]
      rfl

/-- C10: when more than one complete line is available before the
router's first read, only the first decoded message survives.
`route_connection` pulls one message from a decoder and discards it;
the handler then restarts decoding from the socket with a fresh empty
buffer, so the handler's message sequence is the first message followed
by the decode of the *remaining chunks only* — while the full stream
also contains the further lines (`ms`) that were already buffered in the
discarded decoder.  When the first chunk ends at a line boundary and
such buffered lines exist, the handler's sequence differs from the full
stream: those lines are silently dropped. -/
theorem c10_router_drops_pipelined :
    ∀ (chunks : List String) (m : String) (ms : List String) (rest : String)
      (cs : List String),
      firstMessage "" chunks = some (m, ms, rest, cs) →
      route_connection_msgs chunks = some (m :: recv_json_lines "" cs) ∧
      recv_json_lines "" chunks = m :: (ms ++ recv_json_lines rest cs) ∧
      (rest = "" → ¬ ms = [] →
        ¬ route_connection_msgs chunks = some (recv_json_lines "" chunks)) := by
  intro chunks m ms rest cs h
  have hd := firstMessage_decode chunks "" m ms rest cs h
  have h1 : route_connection_msgs chunks = some (m :: recv_json_lines "" cs) := by
    simp [route_connection_msgs, h]
  refine ⟨h1, hd, ?_⟩
  intro hrest hms hC
  subst hrest
  rw [h1, hd] at hC
  have h2 := Option.some.inj hC
  have h3 := (List.cons.injEq _ _ _ _ ▸ h2).2
  exact hms (List.self_eq_append_left.mp h3)

/-- C10 witness: one TCP segment carrying three pipelined lines — the
handler sees only "a", while the stream decodes to all three lines. -/
theorem c10_router_drops_pipelined_witness :
    route_connection_msgs ["a\nb\nc\n"] = some ("a" :: recv_json_lines "" []) ∧
    recv_json_lines "" ["a\nb\nc\n"] = "a" :: (["b", "c"] ++ recv_json_lines "" []) ∧
    ¬ route_connection_msgs ["a\nb\nc\n"] =
      some (recv_json_lines "" ["a\nb\nc\n"]) := by
  have h := c10_router_drops_pipelined ["a\nb\nc\n"] "a" ["b", "c"] "" []
    (by decide)
  exact ⟨h.1, h.2.1, h.2.2 rfl (by decide)⟩

/-- C5 witness: a concrete registered session is closed exactly once and
its name is gone from the registry after cleanup. -/
theorem c5_cleanup_exactly_once_witness :
    countClose (handle_client ⟨"A", 9⟩ ⟨[], []⟩ ⟨[], [], 0, 0⟩
        (some (loginMsg "alice")) [] false).2 9 = 1 ∧
    "alice" ∉ (handle_client ⟨"A", 9⟩ ⟨[], []⟩ ⟨[], [], 0, 0⟩
        (some (loginMsg "alice")) [] false).1.clients.map Prod.fst :=
  ⟨(c5_cleanup_exactly_once ⟨"A", 9⟩ ⟨[], []⟩ ⟨[], [], 0, 0⟩
      (some (loginMsg "alice")) [] false).2.1,
   ((c5_cleanup_exactly_once ⟨"A", 9⟩ ⟨[], []⟩ ⟨[], [], 0, 0⟩
      (some (loginMsg "alice")) [] false).2.2.1 "alice" (by decide)).2⟩
